import Mathlib

/-!
Verification of the webrss feed aggregator (src/main.go) against its
natural-language specification.

The Go program is shallowly embedded: pure functions become Lean functions,
the channel-based cache actor becomes an explicit step relation on a state
type, timestamps (`time.Time`) become the absolute number of seconds since
the zero time (January 1 of year 1, UTC), so that Go's `Time.After` is `<`
on `Int` and the zero `time.Time` is `0`.  Fallible operations return
`Option` or `Except`.
-/

namespace Webrss

open scoped List

/-! ## Data model (src/main.go, type Entry)

`Entry` mirrors the Go struct `Entry`.  `When` is the absolute instant in
seconds since the zero time; the zero `time.Time` value is `0`. -/

structure Entry where
  FeedName : String
  FeedURL : String
  Title : String
  URL : String
  When : Int
deriving DecidableEq, Repr

/-- The zero `time.Time` value in the seconds-since-year-1 embedding. -/
def goZeroTime : Int := 0

/-! ## Query/Filter (src/main.go, filterEntries)

Go keeps the entries with `i.When.After(begin)` (strict `>`) and then sorts
the kept list with `sort.Slice` and the comparison
`filtered[i].When.After(filtered[j].When)`.  `sort.Slice` guarantees a
permutation of its input that is sorted with respect to the comparison (it
is not stable); `List.mergeSort` satisfies exactly that contract. -/

def filterEntries (feeds : List Entry) (b : Int) : List Entry :=
  (feeds.filter (fun i => decide (b < i.When))).mergeSort
    (fun x y => decide (y.When ≤ x.When))

lemma mem_filterEntries_iff (feeds : List Entry) (b : Int) (e : Entry) :
    e ∈ filterEntries feeds b ↔ e ∈ feeds ∧ b < e.When := by
  unfold filterEntries
  rw [List.mem_mergeSort, List.mem_filter]
  simp

/-- C1 (amended): `filterEntries` returns exactly the entries whose `When` is
strictly after the cutoff, sorted by `When` descending; this holds for the
zero cutoff as well, so an entry whose `When` is itself the zero time is
excluded even when the cutoff is the unset (zero) time. -/
theorem filterEntries_strict_cutoff :
    ∀ (feeds : List Entry) (b : Int),
      filterEntries feeds b ~ feeds.filter (fun i => decide (b < i.When)) ∧
      List.Pairwise (fun x y : Entry => y.When ≤ x.When) (filterEntries feeds b) ∧
      (∀ e ∈ filterEntries feeds b, b < e.When) ∧
      (∀ e ∈ feeds, b < e.When → e ∈ filterEntries feeds b) ∧
      (∀ e ∈ feeds, e.When = goZeroTime → e ∉ filterEntries feeds goZeroTime) := by
  intro feeds b
  refine ⟨List.mergeSort_perm _ _, ?_, ?_, ?_, ?_⟩
  · have h := @List.sorted_mergeSort Entry
      (fun x y : Entry => decide (y.When ≤ x.When))
      (fun x y z hxy hyz => by
        simp only [decide_eq_true_eq] at *
        omega)
      (fun x y => by
        simp only [Bool.or_eq_true, decide_eq_true_eq]
        omega)
      (feeds.filter (fun i => decide (b < i.When)))
    exact h.imp (fun hb => by simpa using hb)
  · intro e he
    exact ((mem_filterEntries_iff feeds b e).mp he).2
  · intro e he hlt
    exact (mem_filterEntries_iff feeds b e).mpr ⟨he, hlt⟩
  · intro e _ h0 hmem
    have := ((mem_filterEntries_iff feeds goZeroTime e).mp hmem).2
    rw [h0] at this
    exact lt_irrefl _ this

/-- A concrete entry whose `When` is the zero time (as produced by the
normalizer when a date fails to parse). -/
def zeroWhenEntry : Entry :=
  { FeedName := "feed", FeedURL := "http://feed/", Title := "t",
    URL := "http://t/", When := goZeroTime }

/-- C1 counterexample: with the unset (zero) cutoff, an entry whose `When` is
itself the zero value is NOT selected — `filterEntries` returns the empty
list on a snapshot consisting of exactly that entry, refuting "every entry of
the snapshot is selected — including entries whose `When` is itself the zero
value". -/
theorem filterEntries_zero_cutoff_drops_zero_when :
    zeroWhenEntry ∉ filterEntries [zeroWhenEntry] goZeroTime ∧
    filterEntries [zeroWhenEntry] goZeroTime = [] := by
  constructor
  · rw [mem_filterEntries_iff]
    decide
  · have h : ([zeroWhenEntry].filter (fun i => decide (goZeroTime < i.When))) = [] := by
      decide
    unfold filterEntries
    rw [h, List.mergeSort_nil]

/-- C1 witness: the spec's own example, entries with timestamps 3 > 2 > 1 and
cutoff 1, instantiating `filterEntries_strict_cutoff` at concrete inputs. -/
theorem filterEntries_strict_cutoff_witness :
    (filterEntries [⟨"f", "fu", "c", "uc", 1⟩, ⟨"f", "fu", "a", "ua", 3⟩,
        ⟨"f", "fu", "b", "ub", 2⟩] 1 ~
      [⟨"f", "fu", "a", "ua", 3⟩, ⟨"f", "fu", "b", "ub", 2⟩]) ∧
    (⟨"f", "fu", "a", "ua", 3⟩ : Entry) ∈
      filterEntries [⟨"f", "fu", "c", "uc", 1⟩, ⟨"f", "fu", "a", "ua", 3⟩,
        ⟨"f", "fu", "b", "ub", 2⟩] 1 ∧
    (⟨"f", "fu", "c", "uc", 0⟩ : Entry) ∉
      filterEntries [⟨"f", "fu", "c", "uc", 0⟩] goZeroTime := by
  refine ⟨?_, ?_, ?_⟩
  · have h := (filterEntries_strict_cutoff [⟨"f", "fu", "c", "uc", 1⟩,
      ⟨"f", "fu", "a", "ua", 3⟩, ⟨"f", "fu", "b", "ub", 2⟩] 1).1
    exact h.trans (by decide)
  · exact (filterEntries_strict_cutoff _ 1).2.2.2.1 _ (by decide) (by decide)
  · exact (filterEntries_strict_cutoff [⟨"f", "fu", "c", "uc", 0⟩] 0).2.2.2.2 _
      (by decide) (by decide)

/-! ## Go time parsing (Go standard library time.Parse, as used by
src/main.go)

`parseRssTimes` and `tryParse` call `time.Parse` with the fixed layouts
RFC822, RFC822Z, RFC1123, RFC1123Z and RFC3339.  We embed `time.Parse`
for exactly these layouts, character by character, following
go/src/time/format.go: fixed-width two/four digit numbers, case-insensitive
month and weekday names, numeric zones, zone abbreviations (an unknown
abbreviation parses with a zero offset, as in Go without a location
context; the special zone spellings ChST/WITA/GMT±hh and Go's
sub-second nanoseconds are not needed by any input considered here and are
left out), Go's optional fractional second after the seconds element, and
the trailing "extra text" check.  Parsed components are range-checked as
in Go (month 1–12, day against the month length, hour ≤ 23, minute and
second ≤ 59). -/

/-- Result of a successful `time.Parse`: the parsed wall-clock components
together with the zone offset in seconds east of UTC. -/
structure GoTime where
  year : Int
  month : Nat
  day : Nat
  hour : Nat
  minute : Nat
  second : Nat
  offset : Int
deriving DecidableEq, Repr

/-- Go's `Parse` defaults: year 0, month and day 1, midnight, UTC. -/
def initGoTime : GoTime :=
  { year := 0, month := 1, day := 1, hour := 0, minute := 0, second := 0,
    offset := 0 }

/-- Fixed-width two-digit number (Go `getnum` with `fixed = true`):
exactly two digits are required. -/
def getnum2 : List Char → Option (Nat × List Char)
  | c₁ :: c₂ :: rest =>
    if c₁.isDigit && c₂.isDigit then
      some ((c₁.toNat - 48) * 10 + (c₂.toNat - 48), rest)
    else none
  | _ => none

/-- Fixed-width four-digit number (Go `getnum4` for the `2006` year). -/
def getnum4 : List Char → Option (Nat × List Char)
  | c₁ :: c₂ :: c₃ :: c₄ :: rest =>
    if c₁.isDigit && c₂.isDigit && c₃.isDigit && c₄.isDigit then
      some (((c₁.toNat - 48) * 10 + (c₂.toNat - 48)) * 100 +
        (c₃.toNat - 48) * 10 + (c₄.toNat - 48), rest)
    else none
  | _ => none

/-- Exact literal match for the separator characters of a layout. -/
def matchLit : List Char → List Char → Option (List Char)
  | [], s => some s
  | _ :: _, [] => none
  | c :: cs, d :: s => if c = d then matchLit cs s else none

/-- Case-insensitive name-prefix match (Go's `match` in format.go). -/
def matchCI : List Char → List Char → Option (List Char)
  | [], s => some s
  | _ :: _, [] => none
  | c :: cs, d :: s => if c.toLower = d.toLower then matchCI cs s else none

/-- Go's `lookup`: try each name in turn, returning its 1-based index and
the rest of the input after the first (case-insensitive) match. -/
def lookupNameAux : List String → Nat → List Char → Option (Nat × List Char)
  | [], _, _ => none
  | n :: ns, i, s =>
    match matchCI n.data s with
    | some rest => some (i, rest)
    | none => lookupNameAux ns (i + 1) s

def shortMonthNames : List String :=
  ["Jan", "Feb", "Mar", "Apr", "May", "Jun", "Jul", "Aug", "Sep", "Oct",
   "Nov", "Dec"]

def shortDayNames : List String :=
  ["Sun", "Mon", "Tue", "Wed", "Thu", "Fri", "Sat"]

/-- Zone abbreviation (layout element `MST`, Go `parseTimeZone`): a run of
three upper-case letters, or of four or five upper-case letters ending in
`T`; six or more upper-case letters, or fewer than three, fail.  An
abbreviation that is not the local zone is recorded with a zero offset,
exactly as Go's `Parse` does without a location context. -/
def parseZoneAbbr (s : List Char) : Option (Int × List Char) :=
  let n := min (s.takeWhile (fun c => c.isUpper)).length 6
  if n = 3 then some (0, s.drop 3)
  else if n = 4 then
    if s[3]? = some 'T' then some (0, s.drop 4) else none
  else if n = 5 then
    if s[4]? = some 'T' then some (0, s.drop 5) else none
  else none

/-- Numeric zone (layout element `-0700`): a sign followed by four digits. -/
def parseZoneNum (s : List Char) : Option (Int × List Char) :=
  match s with
  | [] => none
  | sign :: rest =>
    if sign = '+' ∨ sign = '-' then
      match getnum2 rest with
      | some (hh, rest₂) =>
        match getnum2 rest₂ with
        | some (mm, rest₃) =>
          let off : Int := hh * 3600 + mm * 60
          some (if sign = '-' then -off else off, rest₃)
        | none => none
      | none => none
    else none

/-- ISO 8601 zone (layout element `Z07:00`, used by RFC3339): the letter
`Z`, or a sign followed by `hh:mm`. -/
def parseZoneISO (s : List Char) : Option (Int × List Char) :=
  match s with
  | 'Z' :: rest => some (0, rest)
  | sign :: rest =>
    if sign = '+' ∨ sign = '-' then
      match getnum2 rest with
      | some (hh, rest₂) =>
        match rest₂ with
        | ':' :: rest₃ =>
          match getnum2 rest₃ with
          | some (mm, rest₄) =>
            let off : Int := hh * 3600 + mm * 60
            some (if sign = '-' then -off else off, rest₄)
          | none => none
        | _ => none
      | none => none
    else none
  | [] => none

/-- Go's special case after the seconds element: a fractional second is
consumed even when the layout has none (its digits carry only nanoseconds,
which the seconds-resolution embedding discards). -/
def skipFraction (s : List Char) : List Char :=
  match s with
  | c :: d :: rest =>
    if (c = '.' ∨ c = ',') ∧ d.isDigit then (d :: rest).dropWhile Char.isDigit
    else s
  | _ => s

/-- The layout elements appearing in the five layouts used by the source. -/
inductive Tok where
  | lit (s : String)
  | wday
  | day2
  | mon2
  | monName
  | year2
  | year4
  | hour2
  | min2
  | sec2
  | zoneAbbr
  | zoneNum
  | zoneISO
deriving DecidableEq, Repr

/-- Run a layout over the input, accumulating parsed components; after the
last element the input must be exhausted (Go's "extra text" error). -/
def runToks : List Tok → List Char → GoTime → Option GoTime
  | [], s, t => if s.isEmpty then some t else none
  | .lit w :: toks, s, t =>
    match matchLit w.data s with
    | some rest => runToks toks rest t
    | none => none
  | .wday :: toks, s, t =>
    match lookupNameAux shortDayNames 1 s with
    | some (_, rest) => runToks toks rest t
    | none => none
  | .day2 :: toks, s, t =>
    match getnum2 s with
    | some (d, rest) => runToks toks rest { t with day := d }
    | none => none
  | .mon2 :: toks, s, t =>
    match getnum2 s with
    | some (m, rest) => runToks toks rest { t with month := m }
    | none => none
  | .monName :: toks, s, t =>
    match lookupNameAux shortMonthNames 1 s with
    | some (m, rest) => runToks toks rest { t with month := m }
    | none => none
  | .year2 :: toks, s, t =>
    match getnum2 s with
    | some (y, rest) =>
      runToks toks rest
        { t with year := if 69 ≤ y then 1900 + (y : Int) else 2000 + (y : Int) }
    | none => none
  | .year4 :: toks, s, t =>
    match getnum4 s with
    | some (y, rest) => runToks toks rest { t with year := (y : Int) }
    | none => none
  | .hour2 :: toks, s, t =>
    match getnum2 s with
    | some (h, rest) => runToks toks rest { t with hour := h }
    | none => none
  | .min2 :: toks, s, t =>
    match getnum2 s with
    | some (m, rest) => runToks toks rest { t with minute := m }
    | none => none
  | .sec2 :: toks, s, t =>
    match getnum2 s with
    | some (x, rest) => runToks toks (skipFraction rest) { t with second := x }
    | none => none
  | .zoneAbbr :: toks, s, t =>
    match parseZoneAbbr s with
    | some (off, rest) => runToks toks rest { t with offset := off }
    | none => none
  | .zoneNum :: toks, s, t =>
    match parseZoneNum s with
    | some (off, rest) => runToks toks rest { t with offset := off }
    | none => none
  | .zoneISO :: toks, s, t =>
    match parseZoneISO s with
    | some (off, rest) => runToks toks rest { t with offset := off }
    | none => none

def isLeapYear (y : Int) : Bool :=
  y % 4 = 0 && (y % 100 ≠ 0 || y % 400 = 0)

def daysInMonth (y : Int) (m : Nat) : Nat :=
  if m = 2 then (if isLeapYear y then 29 else 28)
  else if m = 4 ∨ m = 6 ∨ m = 9 ∨ m = 11 then 30
  else 31

/-- Go's range checks on the parsed components. -/
def validTime (t : GoTime) : Bool :=
  decide (1 ≤ t.month ∧ t.month ≤ 12 ∧ 1 ≤ t.day ∧
    t.day ≤ daysInMonth t.year t.month ∧ t.hour ≤ 23 ∧ t.minute ≤ 59 ∧
    t.second ≤ 59)

/-- The five `time` package layout constants the source passes to
`time.Parse`. -/
inductive Fmt where
  | rfc822
  | rfc822z
  | rfc1123
  | rfc1123z
  | rfc3339
deriving DecidableEq, Repr

/-- The layout strings, element by element:
`RFC822   = "02 Jan 06 15:04 MST"`,
`RFC822Z  = "02 Jan 06 15:04 -0700"`,
`RFC1123  = "Mon, 02 Jan 2006 15:04:05 MST"`,
`RFC1123Z = "Mon, 02 Jan 2006 15:04:05 -0700"`,
`RFC3339  = "2006-01-02T15:04:05Z07:00"`. -/
def layoutToks : Fmt → List Tok
  | .rfc822 =>
    [.day2, .lit " ", .monName, .lit " ", .year2, .lit " ", .hour2, .lit ":",
     .min2, .lit " ", .zoneAbbr]
  | .rfc822z =>
    [.day2, .lit " ", .monName, .lit " ", .year2, .lit " ", .hour2, .lit ":",
     .min2, .lit " ", .zoneNum]
  | .rfc1123 =>
    [.wday, .lit ", ", .day2, .lit " ", .monName, .lit " ", .year4, .lit " ",
     .hour2, .lit ":", .min2, .lit ":", .sec2, .lit " ", .zoneAbbr]
  | .rfc1123z =>
    [.wday, .lit ", ", .day2, .lit " ", .monName, .lit " ", .year4, .lit " ",
     .hour2, .lit ":", .min2, .lit ":", .sec2, .lit " ", .zoneNum]
  | .rfc3339 =>
    [.year4, .lit "-", .mon2, .lit "-", .day2, .lit "T", .hour2, .lit ":",
     .min2, .lit ":", .sec2, .zoneISO]

/-- `time.Parse(layout, value)` for the five layouts used by the source. -/
def goTimeParse (f : Fmt) (ts : String) : Option GoTime :=
  match runToks (layoutToks f) ts.data initGoTime with
  | some t => if validTime t then some t else none
  | none => none

/-! Conversion of a parsed `GoTime` to the absolute instant it denotes, in
seconds since the zero `time.Time` (January 1 of year 1, 00:00:00 UTC),
ignoring leap seconds exactly as Go does.  `daysFromCivil` is the standard
proleptic-Gregorian day count (days since 1970-01-01). -/

def daysFromCivil (y : Int) (m d : Nat) : Int :=
  let y' : Int := if m ≤ 2 then y - 1 else y
  let era : Int := y'.fdiv 400
  let yoe : Int := y' - era * 400
  let mp : Int := (m : Int) + (if 2 < m then -3 else 9)
  let doy : Int := (153 * mp + 2).fdiv 5 + (d : Int) - 1
  let doe : Int := yoe * 365 + yoe.fdiv 4 - yoe.fdiv 100 + doy
  era * 146097 + doe - 719468

/-- Days from 0001-01-01 to 1970-01-01 in the proleptic Gregorian
calendar. -/
def daysYear1ToEpoch : Int := 719162

def toAbs (t : GoTime) : Int :=
  (daysFromCivil t.year t.month t.day + daysYear1ToEpoch) * 86400 +
    (t.hour : Int) * 3600 + (t.minute : Int) * 60 + (t.second : Int) -
    t.offset

/-- The absolute instant of a parse result, with Go's convention that a
failed `time.Parse` leaves the zero `time.Time`. -/
def timeOrZero (o : Option GoTime) : Int :=
  match o with
  | some t => toAbs t
  | none => goZeroTime

/-! ## RSS date parsing (src/main.go, parseRssTimes)

Go iterates over `fmts := []string{time.RFC822, time.RFC822Z, time.RFC1123,
time.RFC1123Z}`, returning at the first layout that parses; on total
failure it returns the zero time and the last error, which `tryParse`
treats as a failed parse. -/

def rssFmts : List Fmt := [.rfc822, .rfc822z, .rfc1123, .rfc1123z]

/-- The loop body of `parseRssTimes`: try each format in turn and return
the first successful parse. -/
def tryFormats : List Fmt → String → Option GoTime
  | [], _ => none
  | f :: fs, ts =>
    match goTimeParse f ts with
    | some t => some t
    | none => tryFormats fs ts

def parseRssTimes (ts : String) : Option GoTime :=
  tryFormats rssFmts ts

lemma tryFormats_eq_findSome? (fs : List Fmt) (ts : String) :
    tryFormats fs ts = fs.findSome? (fun f => goTimeParse f ts) := by
  induction fs with
  | nil => rfl
  | cons f fs ih =>
    rw [tryFormats, List.findSome?_cons]
    cases goTimeParse f ts <;> simp [ih]

/-- The RSS2 pubDate sample from the spec. -/
def rssSample : String := "Mon, 02 Jan 2006 15:04:05 -0700"

/-- C5: `parseRssTimes` attempts RFC822, RFC822Z, RFC1123, RFC1123Z in
exactly that order and returns the first successful parse (it computes
`List.findSome?` of `time.Parse` over that format list); the sample
string "Mon, 02 Jan 2006 15:04:05 -0700" fails the first three formats
and parses successfully via the RFC1123Z fallback. -/
theorem parseRssTimes_order_and_sample :
    (∀ ts, parseRssTimes ts =
      List.findSome? (fun f => goTimeParse f ts)
        [.rfc822, .rfc822z, .rfc1123, .rfc1123z]) ∧
    goTimeParse .rfc822 rssSample = none ∧
    goTimeParse .rfc822z rssSample = none ∧
    goTimeParse .rfc1123 rssSample = none ∧
    goTimeParse .rfc1123z rssSample =
      some { year := 2006, month := 1, day := 2, hour := 15, minute := 4,
             second := 5, offset := -25200 } ∧
    parseRssTimes rssSample = goTimeParse .rfc1123z rssSample := by
  refine ⟨fun ts => tryFormats_eq_findSome? rssFmts ts, ?_, ?_, ?_, ?_, ?_⟩ <;>
    decide

/-! ## XML documents and the two feed schemas (src/main.go, types Atom1,
Rss2, Feed)

A decoded XML element carries its local name, attributes, directly
contained character data and child elements.  `encoding/xml` unmarshalling
of the struct tags used by `Atom1` and `Rss2` reduces, for these types, to:
a string field tagged with an element name receives the character data of
the matching child elements (the last match wins), a field tagged
`attr` receives the value of the matching attribute, and a slice field
collects every matching child element in document order. -/

inductive XEl where
  | mk (name : String) (attrs : List (String × String)) (text : String)
      (children : List XEl)

def XEl.name : XEl → String
  | .mk n _ _ _ => n

def XEl.attrs : XEl → List (String × String)
  | .mk _ a _ _ => a

def XEl.text : XEl → String
  | .mk _ _ t _ => t

def XEl.children : XEl → List XEl
  | .mk _ _ _ c => c

/-- The matching child elements of `e` named `n`, in document order. -/
def childrenNamed (e : XEl) (n : String) : List XEl :=
  e.children.filter (fun c => c.name == n)

/-- The child element a non-slice struct field tagged with `n` ends up
holding (the last matching child, since each match overwrites). -/
def lastChildNamed (e : XEl) (n : String) : Option XEl :=
  (childrenNamed e n).getLast?

/-- The character data that a string field tagged with element name `n`
receives; the Go zero value (the empty string) if no child matches. -/
def childText (e : XEl) (n : String) : String :=
  ((lastChildNamed e n).map XEl.text).getD ""

/-- The value an `attr`-tagged string field receives from element `e`. -/
def attrOf (e : XEl) (n : String) : String :=
  ((e.attrs.find? (fun a => a.1 == n)).map Prod.snd).getD ""

/-- One decoded `entry` element of an Atom1 document: `title`, the `href`
attribute of `link`, and `updated`. -/
structure AtomItem where
  title : String
  linkURL : String
  updated : String
deriving DecidableEq, Repr

/-- The Go `Atom1` struct: feed `title`, the `href` attribute of the feed
`link`, and one item per `entry` child. -/
structure Atom1 where
  title : String
  linkURL : String
  items : List AtomItem
deriving DecidableEq, Repr

/-- One decoded `item` element of an RSS2 channel: `title`, `link` (text
content, not an attribute), and `pubDate`. -/
structure RssItem where
  title : String
  link : String
  pubDate : String
deriving DecidableEq, Repr

/-- The Go `Rss2` struct, flattened to the fields of its `channel`. -/
structure Rss2 where
  channelTitle : String
  channelLink : String
  items : List RssItem
deriving DecidableEq, Repr

def decodeAtomItem (e : XEl) : AtomItem :=
  { title := childText e "title",
    linkURL := ((lastChildNamed e "link").map (fun l => attrOf l "href")).getD "",
    updated := childText e "updated" }

def decodeAtom (root : XEl) : Atom1 :=
  { title := childText root "title",
    linkURL := ((lastChildNamed root "link").map (fun l => attrOf l "href")).getD "",
    items := (childrenNamed root "entry").map decodeAtomItem }

def decodeRssItem (e : XEl) : RssItem :=
  { title := childText e "title",
    link := childText e "link",
    pubDate := childText e "pubDate" }

def decodeRss2 (root : XEl) : Rss2 :=
  match lastChildNamed root "channel" with
  | none => { channelTitle := "", channelLink := "", items := [] }
  | some ch =>
    { channelTitle := childText ch "title",
      channelLink := childText ch "link",
      items := (childrenNamed ch "item").map decodeRssItem }

/-- The Go `Feed` struct: two nullable schema variants. -/
structure Feed where
  atom : Option Atom1
  rss : Option Rss2
deriving DecidableEq, Repr

/-- `Feed.UnmarshalXML` (src/main.go lines 192–198): if the root element's
local name equals `rss`, decode the document into the `rss` field,
otherwise into the `atom` field. -/
def unmarshalFeed (root : XEl) : Feed :=
  if root.name = "rss" then { atom := none, rss := some (decodeRss2 root) }
  else { atom := some (decodeAtom root), rss := none }

/-! ## The normalizer (src/main.go, tryParse)

`tryParse` decodes the document (a hard error aborts it), then walks the
items of whichever variant was populated, parsing each item's date —
RFC3339 for Atom, `parseRssTimes` for RSS2.  A failed date parse logs a
warning (`log.Printf("Time parse error for %q: ...")`) and keeps the entry
with the zero timestamp.  Warnings are returned alongside the entries,
standing for the `log.Printf` calls. -/

def atomWarning (i : AtomItem) : String :=
  "Time parse error for " ++ i.title ++ ": atom"

def rssWarning (i : RssItem) : String :=
  "Time parse error for " ++ i.title ++ ": rss"

def atomEntry (a : Atom1) (i : AtomItem) : Entry :=
  { FeedName := a.title, FeedURL := a.linkURL, Title := i.title,
    URL := i.linkURL, When := timeOrZero (goTimeParse .rfc3339 i.updated) }

def rssEntry (r : Rss2) (i : RssItem) : Entry :=
  { FeedName := r.channelTitle, FeedURL := r.channelLink, Title := i.title,
    URL := i.link, When := timeOrZero (parseRssTimes i.pubDate) }

def normalizeAtom (a : Atom1) : List Entry × List String :=
  (a.items.map (atomEntry a),
   (a.items.filter (fun i => (goTimeParse .rfc3339 i.updated).isNone)).map
     atomWarning)

def normalizeRss (r : Rss2) : List Entry × List String :=
  (r.items.map (rssEntry r),
   (r.items.filter (fun i => (parseRssTimes i.pubDate).isNone)).map
     rssWarning)

/-- `tryParse`: the input is the result of `xml.Decoder.Decode` — a hard
error for XML the decoder cannot decode, otherwise the root element.  The
final branch mirrors Go's unconditional `feed.rss.Channel` dereference in
the `else` arm; it is unreachable because `unmarshalFeed` always populates
exactly one variant. -/
def tryParse (doc : Except String XEl) : Except String (List Entry × List String) :=
  match doc with
  | .error e => .error e
  | .ok root =>
    match (unmarshalFeed root).atom, (unmarshalFeed root).rss with
    | some a, _ => .ok (normalizeAtom a)
    | none, some r => .ok (normalizeRss r)
    | none, none => .error "nil feed"

/-- C4: the Format Dispatcher decides the schema from the root XML
element's local name alone — `rss` decodes the document as `Rss2`,
anything else as `Atom1` — and exactly one of the two variants is
populated per document. -/
theorem feed_dispatch_root_local_name :
    ∀ root : XEl,
      (root.name = "rss" →
        unmarshalFeed root = { atom := none, rss := some (decodeRss2 root) }) ∧
      (root.name ≠ "rss" →
        unmarshalFeed root = { atom := some (decodeAtom root), rss := none }) ∧
      (((unmarshalFeed root).atom.isSome = true ∧ (unmarshalFeed root).rss = none) ∨
       ((unmarshalFeed root).atom = none ∧ (unmarshalFeed root).rss.isSome = true)) := by
  intro root
  by_cases h : root.name = "rss" <;> simp [unmarshalFeed, h]

/-- A concrete RSS2 document: root element `rss` with one channel and one
item. -/
def sampleRssRoot : XEl :=
  .mk "rss" [("version", "2.0")] ""
    [.mk "channel" [] ""
      [.mk "title" [] "R" [],
       .mk "link" [] "http://r/" [],
       .mk "item" [] ""
         [.mk "title" [] "i1" [],
          .mk "link" [] "http://r/1" [],
          .mk "pubDate" [] "Mon, 02 Jan 2006 15:04:05 -0700" []]]]

/-- A concrete Atom document: root element `feed` with one entry. -/
def sampleAtomRoot : XEl :=
  .mk "feed" [] ""
    [.mk "title" [] "A" [],
     .mk "link" [("href", "http://a/")] "" [],
     .mk "entry" [] ""
       [.mk "title" [] "e1" [],
        .mk "link" [("href", "http://a/1")] "" [],
        .mk "updated" [] "2021-01-02T00:00:00Z" []]]

/-- C4 witness: the dispatch theorem instantiated at a concrete RSS2
document and at a concrete Atom document. -/
theorem feed_dispatch_root_local_name_witness :
    unmarshalFeed sampleRssRoot =
      { atom := none, rss := some (decodeRss2 sampleRssRoot) } ∧
    unmarshalFeed sampleAtomRoot =
      { atom := some (decodeAtom sampleAtomRoot), rss := none } :=
  ⟨(feed_dispatch_root_local_name sampleRssRoot).1 rfl,
   (feed_dispatch_root_local_name sampleAtomRoot).2.1 (by decide)⟩

/-- The date strings of the document's items, in document order, for
whichever schema the dispatcher selects. -/
def docDates (root : XEl) : List String :=
  if root.name = "rss" then (decodeRss2 root).items.map RssItem.pubDate
  else (decodeAtom root).items.map AtomItem.updated

/-- The date parser the normalizer applies to this document's items. -/
def docParseDate (root : XEl) (s : String) : Option GoTime :=
  if root.name = "rss" then parseRssTimes s else goTimeParse .rfc3339 s

/-- C6: a single item's date-parse failure never fails the document — the
normalizer still returns success with one entry per item, the failing item
is kept with the zero timestamp, and a warning is logged. -/
theorem tryParse_keeps_unparseable_dates :
    ∀ (root : XEl) (j : Nat) (d : String),
      (docDates root)[j]? = some d →
      docParseDate root d = none →
      ∃ es ws, tryParse (.ok root) = .ok (es, ws) ∧
        es.length = (docDates root).length ∧
        (∃ e, es[j]? = some e ∧ e.When = goZeroTime) ∧
        ws ≠ [] := by
  intro root j d hj hfail
  by_cases h : root.name = "rss"
  · rw [docDates, if_pos h] at hj
    rw [docParseDate, if_pos h] at hfail
    rw [List.getElem?_map] at hj
    obtain ⟨it, hit, hd⟩ := Option.map_eq_some'.mp hj
    refine ⟨(normalizeRss (decodeRss2 root)).1, (normalizeRss (decodeRss2 root)).2,
      ?_, ?_, ?_, ?_⟩
    · rw [tryParse, unmarshalFeed, if_pos h]
    · rw [docDates, if_pos h]
      simp [normalizeRss]
    · refine ⟨rssEntry (decodeRss2 root) it, ?_, ?_⟩
      · rw [normalizeRss]
        simp only [List.getElem?_map, hit, Option.map_some']
      · rw [rssEntry]
        have : parseRssTimes it.pubDate = none := by rw [hd]; exact hfail
        simp [timeOrZero, this]
    · rw [normalizeRss]
      simp only [ne_eq, List.map_eq_nil_iff, List.filter_eq_nil_iff, not_forall]
      refine ⟨it, List.getElem?_mem hit, ?_⟩
      have : parseRssTimes it.pubDate = none := by rw [hd]; exact hfail
      simp [this]
  · rw [docDates, if_neg h] at hj
    rw [docParseDate, if_neg h] at hfail
    rw [List.getElem?_map] at hj
    obtain ⟨it, hit, hd⟩ := Option.map_eq_some'.mp hj
    refine ⟨(normalizeAtom (decodeAtom root)).1, (normalizeAtom (decodeAtom root)).2,
      ?_, ?_, ?_, ?_⟩
    · rw [tryParse, unmarshalFeed, if_neg h]
    · rw [docDates, if_neg h]
      simp [normalizeAtom]
    · refine ⟨atomEntry (decodeAtom root) it, ?_, ?_⟩
      · rw [normalizeAtom]
        simp only [List.getElem?_map, hit, Option.map_some']
      · rw [atomEntry]
        have : goTimeParse .rfc3339 it.updated = none := by rw [hd]; exact hfail
        simp [timeOrZero, this]
    · rw [normalizeAtom]
      simp only [ne_eq, List.map_eq_nil_iff, List.filter_eq_nil_iff, not_forall]
      refine ⟨it, List.getElem?_mem hit, ?_⟩
      have : goTimeParse .rfc3339 it.updated = none := by rw [hd]; exact hfail
      simp [this]

/-- An Atom document whose single entry has an unparseable `updated`
date. -/
def badDateAtomRoot : XEl :=
  .mk "feed" [] ""
    [.mk "title" [] "A" [],
     .mk "entry" [] ""
       [.mk "title" [] "e1" [],
        .mk "updated" [] "notadate" []]]

/-- C6 witness: the soft-failure theorem instantiated at a concrete Atom
document with an unparseable date. -/
theorem tryParse_keeps_unparseable_dates_witness :
    ∃ es ws, tryParse (.ok badDateAtomRoot) = .ok (es, ws) ∧
      es.length = (docDates badDateAtomRoot).length ∧
      (∃ e, es[0]? = some e ∧ e.When = goZeroTime) ∧
      ws ≠ [] :=
  tryParse_keeps_unparseable_dates badDateAtomRoot 0 "notadate" (by decide)
    (by decide)

/-- C9: for every well-formed XML document whose root local name is not
`rss`, the parse succeeds — even when the document is not an Atom feed at
all — with exactly one entry per `entry` child element (possibly none);
the normalizer in fact succeeds on every decodable document, so a hard
error can only arise from XML the decoder cannot decode. -/
theorem tryParse_non_rss_total :
    (∀ root : XEl, (tryParse (.ok root)).isOk = true) ∧
    (∀ root : XEl, root.name ≠ "rss" →
      ∃ es ws, tryParse (.ok root) = .ok (es, ws) ∧
        es.length = (childrenNamed root "entry").length) ∧
    (∀ msg : String, tryParse (.error msg) = .error msg) := by
  refine ⟨?_, ?_, fun _ => rfl⟩
  · intro root
    rw [tryParse, unmarshalFeed]
    by_cases h : root.name = "rss" <;> simp [h, Except.isOk, Except.toBool]
  · intro root h
    refine ⟨(normalizeAtom (decodeAtom root)).1, (normalizeAtom (decodeAtom root)).2,
      ?_, ?_⟩
    · rw [tryParse, unmarshalFeed, if_neg h]
    · simp [normalizeAtom, decodeAtom]

/-- A well-formed XML document that is not a feed at all. -/
def htmlRoot : XEl :=
  .mk "html" [] "" [.mk "body" [] "hello" []]

/-- C9 witness: the theorem instantiated at a non-feed document with no
`entry` elements — the parse succeeds with the empty entry list. -/
theorem tryParse_non_rss_total_witness :
    ∃ es ws, tryParse (.ok htmlRoot) = .ok (es, ws) ∧
      es.length = (childrenNamed htmlRoot "entry").length :=
  tryParse_non_rss_total.2.1 htmlRoot (by decide)

/-! ## Single-feed fetcher and fan-out poller (src/main.go, getFeed and
fetch)

`getFeed` is abstracted over the network: `web` maps a URL to either a
transport/URL error or the decoded root element of the response body;
`getFeed` tags every error with the offending URL and otherwise normalizes
the body.  One poll cycle (`fetch`) skips empty URL strings, launches one
`getFeed` per remaining URL, and joins the results as they arrive on the
two channels; the arrival order is nondeterministic, so `fetch` is stated
over an arbitrary arrival list that is a permutation of the launched
fetches' results.  After the join the aggregated batch is sent downstream
(`db <- feeds`) exactly once, and the collected errors are logged. -/

def getFeed (web : String → Except String XEl) (u : String) :
    Except String (List Entry) :=
  match web u with
  | .error e => .error (u ++ ": " ++ e)
  | .ok root =>
    match tryParse (.ok root) with
    | .error e => .error (u ++ ": " ++ e)
    | .ok (es, _) => .ok es

/-- The URLs `fetch` actually launches a goroutine for: `len(u) == 0` is
skipped. -/
def launchedUrls (urls : List String) : List String :=
  urls.filter (fun u => !(u.length == 0))

/-- The entry batches among the arrived results, in arrival order. -/
def okBatch : Except String (List Entry) → Option (List Entry)
  | .ok es => some es
  | .error _ => none

/-- The aggregated batch: `feeds = append(feeds, f...)` over the arrival
order. -/
def collectFeeds (arrivals : List (Except String (List Entry))) : List Entry :=
  (arrivals.filterMap okBatch).flatten

/-- The errors collected during the join, in arrival order. -/
def collectErrs (arrivals : List (Except String (List Entry))) : List String :=
  arrivals.filterMap
    (fun r => match r with | .error e => some e | .ok _ => none)

/-- What one poll cycle makes observable: the batches sent downstream on
`db` and the errors logged after the join. -/
structure FetchOutcome where
  sends : List (List Entry)
  logged : List String
deriving DecidableEq, Repr

/-- One poll cycle after the join phase: the single `db <- feeds` send and
the error log. -/
def fetch (arrivals : List (Except String (List Entry))) : FetchOutcome :=
  { sends := [collectFeeds arrivals], logged := collectErrs arrivals }

/-- The entries of a successful fetch result. -/
def okEntries (r : Except String (List Entry)) : List Entry :=
  match r with
  | .ok es => es
  | .error _ => []

lemma filterMap_okBatch_of_all_ok (f : String → Except String (List Entry)) :
    ∀ l : List String, (∀ u ∈ l, (f u).isOk = true) →
      (l.map f).filterMap okBatch = l.map (fun u => okEntries (f u)) := by
  intro l hl
  induction l with
  | nil => rfl
  | cons u l ih =>
    have hu := hl u (List.mem_cons_self u l)
    have hrest : ∀ v ∈ l, (f v).isOk = true := fun v hv =>
      hl v (List.mem_cons_of_mem u hv)
    rw [List.map_cons, List.filterMap_cons, List.map_cons]
    match hfu : f u with
    | .ok es => rw [okBatch, okEntries, ih hrest]
    | .error e => rw [hfu] at hu; simp [Except.isOk, Except.toBool] at hu

/-- C2: in every poll cycle exactly one batch (possibly empty) is
delivered downstream; and for every non-empty URL list whose fetches all
succeed, that batch is a permutation of the concatenation of the
individual feeds' entries — no item dropped or duplicated — so its size
is the sum of the feeds' item counts. -/
theorem fetch_delivers_one_complete_batch :
    (∀ arrivals, (fetch arrivals).sends.length = 1) ∧
    (∀ (urls : List String) (web : String → Except String XEl)
       (arrivals : List (Except String (List Entry))),
       urls ≠ [] →
       arrivals ~ (launchedUrls urls).map (getFeed web) →
       (∀ u ∈ launchedUrls urls, (getFeed web u).isOk = true) →
       (fetch arrivals).sends = [collectFeeds arrivals] ∧
       collectFeeds arrivals ~
         ((launchedUrls urls).map (fun u => okEntries (getFeed web u))).flatten ∧
       (collectFeeds arrivals).length =
         ((launchedUrls urls).map
           (fun u => (okEntries (getFeed web u)).length)).sum) := by
  refine ⟨fun _ => rfl, ?_⟩
  intro urls web arrivals _ hperm hok
  have hfm := hperm.filterMap okBatch
  rw [filterMap_okBatch_of_all_ok (getFeed web) (launchedUrls urls) hok] at hfm
  have hflat : collectFeeds arrivals ~
      ((launchedUrls urls).map (fun u => okEntries (getFeed web u))).flatten :=
    hfm.flatten
  refine ⟨rfl, hflat, ?_⟩
  rw [hflat.length_eq, List.length_flatten, List.map_map]
  rfl

/-- A web oracle serving the two concrete sample documents. -/
def sampleWeb : String → Except String XEl :=
  fun u => if u = "a" then .ok sampleAtomRoot
    else if u = "r" then .ok sampleRssRoot
    else .error "no such host"

/-- C2 witness: a poll cycle over the URL list `["a", "", "r"]` (the empty
string is skipped) with all fetches successful, taking the arrivals in
launch order. -/
theorem fetch_delivers_one_complete_batch_witness :
    (fetch ((launchedUrls ["a", "", "r"]).map (getFeed sampleWeb))).sends.length = 1 ∧
    collectFeeds ((launchedUrls ["a", "", "r"]).map (getFeed sampleWeb)) ~
      ((launchedUrls ["a", "", "r"]).map
        (fun u => okEntries (getFeed sampleWeb u))).flatten ∧
    (collectFeeds ((launchedUrls ["a", "", "r"]).map (getFeed sampleWeb))).length =
      ((launchedUrls ["a", "", "r"]).map
        (fun u => (okEntries (getFeed sampleWeb u)).length)).sum := by
  have h := fetch_delivers_one_complete_batch.2 ["a", "", "r"] sampleWeb
    ((launchedUrls ["a", "", "r"]).map (getFeed sampleWeb))
    (by decide) (List.Perm.refl _) (by decide)
  exact ⟨fetch_delivers_one_complete_batch.1 _, h.2.1, h.2.2⟩

/-! ## Durable store (src/main.go, saveFeeds / fetchFeeds via encoding/gob)

`saveFeeds` gob-encodes the entry list into the cache file; the startup
path of `fetchFeeds` gob-decodes it back.  `encoding/gob` is a
self-describing binary encoding of the struct's fields; it is embedded
here as a concrete byte-level codec for `List Entry`: strings become a
length-prefixed run of character codes, `When` a sign-and-magnitude pair,
and the list a length-prefixed concatenation of its records. -/

def encodeStr (s : String) : List Nat :=
  s.data.length :: s.data.map Char.toNat

def decodeChars : Nat → List Nat → Option (List Char × List Nat)
  | 0, rest => some ([], rest)
  | _ + 1, [] => none
  | n + 1, c :: rest =>
    (decodeChars n rest).map (fun p => (Char.ofNat c :: p.1, p.2))

def decodeStr : List Nat → Option (String × List Nat)
  | [] => none
  | n :: rest => (decodeChars n rest).map (fun p => (String.mk p.1, p.2))

def encodeInt (i : Int) : List Nat :=
  [if i < 0 then 1 else 0, i.natAbs]

def decodeInt : List Nat → Option (Int × List Nat)
  | sgn :: n :: rest =>
    some (if sgn = 1 then -(n : Int) else (n : Int), rest)
  | _ => none

def encodeEntry (e : Entry) : List Nat :=
  encodeStr e.FeedName ++ encodeStr e.FeedURL ++ encodeStr e.Title ++
    encodeStr e.URL ++ encodeInt e.When

def decodeEntry (l : List Nat) : Option (Entry × List Nat) := do
  let (fn, l) ← decodeStr l
  let (fu, l) ← decodeStr l
  let (t, l) ← decodeStr l
  let (u, l) ← decodeStr l
  let (w, l) ← decodeInt l
  some (⟨fn, fu, t, u, w⟩, l)

def encodeEntries (l : List Entry) : List Nat :=
  l.length :: l.flatMap encodeEntry

def decodeEntriesAux : Nat → List Nat → Option (List Entry × List Nat)
  | 0, rest => some ([], rest)
  | n + 1, rest => do
    let (e, rest') ← decodeEntry rest
    let (es, rest'') ← decodeEntriesAux n rest'
    some (e :: es, rest'')

def decodeEntries : List Nat → Option (List Entry)
  | [] => none
  | n :: rest => (decodeEntriesAux n rest).map Prod.fst

lemma decodeChars_encode (cs : List Char) (r : List Nat) :
    decodeChars cs.length (cs.map Char.toNat ++ r) = some (cs, r) := by
  induction cs with
  | nil => rfl
  | cons c cs ih =>
    rw [List.length_cons, List.map_cons, List.cons_append, decodeChars, ih]
    simp

lemma decodeStr_encode (s : String) (r : List Nat) :
    decodeStr (encodeStr s ++ r) = some (s, r) := by
  rw [encodeStr, List.cons_append, decodeStr, decodeChars_encode]
  rfl

lemma decodeInt_encode (i : Int) (r : List Nat) :
    decodeInt (encodeInt i ++ r) = some (i, r) := by
  rw [encodeInt]
  by_cases h : i < 0
  · rw [if_pos h]
    rw [show ([1, i.natAbs] : List Nat) ++ r = 1 :: i.natAbs :: r from rfl]
    rw [decodeInt, if_pos rfl]
    have : -((i.natAbs : Int)) = i := by omega
    rw [this]
  · rw [if_neg h]
    rw [show ([0, i.natAbs] : List Nat) ++ r = 0 :: i.natAbs :: r from rfl]
    rw [decodeInt, if_neg (by decide)]
    have : ((i.natAbs : Int)) = i := by omega
    rw [this]

lemma decodeEntry_encode (e : Entry) (r : List Nat) :
    decodeEntry (encodeEntry e ++ r) = some (e, r) := by
  simp only [encodeEntry, decodeEntry, List.append_assoc, decodeStr_encode,
    decodeInt_encode, Option.some_bind, Option.bind_eq_bind]

lemma decodeEntriesAux_encode (l : List Entry) (r : List Nat) :
    decodeEntriesAux l.length (l.flatMap encodeEntry ++ r) = some (l, r) := by
  induction l with
  | nil => rfl
  | cons e l ih =>
    simp only [List.length_cons, List.flatMap_cons, List.append_assoc,
      decodeEntriesAux, decodeEntry_encode, ih, Option.some_bind,
      Option.bind_eq_bind]

/-- Round-trip of the durable encoding. -/
lemma decodeEntries_encodeEntries (l : List Entry) :
    decodeEntries (encodeEntries l) = some l := by
  rw [encodeEntries, decodeEntries]
  have h := decodeEntriesAux_encode l []
  rw [List.append_nil] at h
  rw [h]
  rfl

/-! ## saveFeeds (src/main.go lines 96–103)

`saveFeeds` runs `os.Create` and passes its error to `maybeDie` (which
calls `os.Exit(1)`); it then runs `enc.Encode(feeds)` and DISCARDS the
returned error.  The two failure possibilities are supplied as oracles. -/

/-- What a call to `saveFeeds` does to the process and to the cache file:
whether the process died (`maybeDie`), and the file contents afterwards
(`none` when nothing complete was written). -/
structure SaveResult where
  died : Bool
  file : Option (List Nat)
deriving DecidableEq, Repr

def saveFeeds (feeds : List Entry) (createErr : Option String)
    (encodeErr : Option String) : SaveResult :=
  match createErr with
  | some _ => { died := true, file := none }
  | none =>
    match encodeErr with
    | some _ => { died := false, file := none }
    | none => { died := false, file := some (encodeEntries feeds) }

/-- C8 counterexample: `os.Create` succeeds but `enc.Encode` fails (disk
full while writing); the program does NOT terminate — `enc.Encode`'s error
is discarded — refuting "whenever any step of save (creating the file or
encoding the entry list into it) fails, the program terminates". -/
theorem saveFeeds_encode_error_not_fatal :
    (saveFeeds [] none (some "disk full")).died = false := rfl

/-- C8 (amended): only a failure of `os.Create` is fatal for the process;
an error from encoding the entry list into the file is ignored and the
process continues.  When both steps succeed the encoded snapshot is on
disk. -/
theorem saveFeeds_fatal_iff_create_fails :
    ∀ (feeds : List Entry) (createErr encodeErr : Option String),
      ((saveFeeds feeds createErr encodeErr).died = true ↔
        createErr.isSome = true) ∧
      (createErr = none → encodeErr = none →
        (saveFeeds feeds createErr encodeErr).file =
          some (encodeEntries feeds)) := by
  intro feeds createErr encodeErr
  cases createErr <;> cases encodeErr <;> simp [saveFeeds]

/-- C8 witness: `saveFeeds_fatal_iff_create_fails` at concrete inputs —
a failed create dies, a successful save leaves the encoded snapshot. -/
theorem saveFeeds_fatal_iff_create_fails_witness :
    ((saveFeeds [] (some "permission denied") none).died = true ↔
      (some "permission denied" : Option String).isSome = true) ∧
    (saveFeeds [zeroWhenEntry] none none).file =
      some (encodeEntries [zeroWhenEntry]) :=
  ⟨(saveFeeds_fatal_iff_create_fails [] (some "permission denied") none).1,
   (saveFeeds_fatal_iff_create_fails [zeroWhenEntry] none none).2 rfl rfl⟩

/-! ## fetchFeeds startup (src/main.go lines 105–122)

At startup `fetchFeeds` opens the cache file: a missing file triggers a
first live poll; a present file is gob-decoded, a decode failure is fatal
(`maybeDie`), and a successful decode is delivered downstream. -/

inductive StartupAction where
  | deliver (snapshot : List Entry)
  | livePoll
  | die
deriving DecidableEq, Repr

def fetchFeedsStartup (cacheFile : Option (List Nat)) : StartupAction :=
  match cacheFile with
  | none => .livePoll
  | some bytes =>
    match decodeEntries bytes with
    | none => .die
    | some feeds => .deliver feeds

/-- C7: saving any snapshot — including the empty one — and loading it
back yields the same snapshot: the startup path delivers exactly the
snapshot that `saveFeeds` persisted. -/
theorem store_round_trip :
    ∀ snapshot : List Entry,
      decodeEntries (encodeEntries snapshot) = some snapshot ∧
      fetchFeedsStartup (saveFeeds snapshot none none).file =
        .deliver snapshot := by
  intro snapshot
  refine ⟨decodeEntries_encodeEntries snapshot, ?_⟩
  rw [saveFeeds, fetchFeedsStartup, decodeEntries_encodeEntries]

/-! ## Cache Actor (src/main.go, feedCache)

`feedCache` is a single goroutine looping over a `select` with two cases:
send the current `feedz` to a reader (`toShow <- feedz`), or receive a new
snapshot (`feedz = <-toSave`) and persist it with `saveFeeds`.  Each loop
iteration commits to exactly one of the two cases, so the actor is
embedded as a step function consuming one event per step: a `serve` event
is one rendezvous with a reader and emits the currently installed
snapshot; an `install` event replaces the snapshot and appends the
persisted encoding to the file-write history.  A trace is an arbitrary
finite event list. -/

inductive CacheEvent where
  | serve
  | install (snapshot : List Entry)

/-- The actor's state: the current snapshot (`feedz`) and the history of
complete snapshot encodings written to the cache file, in write order. -/
structure CacheState where
  feedz : List Entry
  writes : List (List Nat)

/-- `var feedz []Entry` — before the first install, readers are served the
nil (empty) entry list and nothing has been written. -/
def cacheInit : CacheState := { feedz := [], writes := [] }

/-- One iteration of the `select` loop.  The second component is what the
reader receives (`some` exactly on a serve). -/
def cacheStep (s : CacheState) (e : CacheEvent) :
    CacheState × Option (List Entry) :=
  match e with
  | .serve => (s, some s.feedz)
  | .install f =>
    ({ feedz := f, writes := s.writes ++ [encodeEntries f] }, none)

/-- Run the actor over a trace, collecting the snapshots served to
readers, in order. -/
def cacheRun (s : CacheState) : List CacheEvent → CacheState × List (List Entry)
  | [] => (s, [])
  | e :: es =>
    let step := cacheStep s e
    let rest := cacheRun step.1 es
    (rest.1, step.2.toList ++ rest.2)

/-- The snapshots installed by a trace, in order. -/
def installsOf (events : List CacheEvent) : List (List Entry) :=
  events.filterMap (fun e => match e with
    | .install f => some f
    | .serve => none)

/-- The snapshot current after a trace: the last installed one, or the
initial one if none was installed. -/
def lastInstalled (events : List CacheEvent) (init : List Entry) : List Entry :=
  ((installsOf events).getLast?).getD init

lemma cacheRun_append (s : CacheState) (l₁ l₂ : List CacheEvent) :
    cacheRun s (l₁ ++ l₂) =
      ((cacheRun (cacheRun s l₁).1 l₂).1,
       (cacheRun s l₁).2 ++ (cacheRun (cacheRun s l₁).1 l₂).2) := by
  induction l₁ generalizing s with
  | nil => simp [cacheRun]
  | cons e l₁ ih =>
    simp [cacheRun, ih]

lemma getLast?_getD_cons (a x : α) (l : List α) :
    (a :: l).getLast?.getD x = l.getLast?.getD a := by
  cases l with
  | nil => rfl
  | cons b l =>
    rw [List.getLast?_cons_cons]
    cases h : (b :: l).getLast? with
    | some v => rfl
    | none => exact absurd (List.getLast?_eq_none_iff.mp h) (by simp)

lemma cacheRun_feedz (s : CacheState) (events : List CacheEvent) :
    (cacheRun s events).1.feedz = lastInstalled events s.feedz := by
  induction events generalizing s with
  | nil => rfl
  | cons e es ih =>
    cases e with
    | serve =>
      rw [cacheRun]
      rw [ih]
      rfl
    | install f =>
      rw [cacheRun]
      rw [ih]
      show lastInstalled es f = lastInstalled (CacheEvent.install f :: es) s.feedz
      have hcons : installsOf (CacheEvent.install f :: es) = f :: installsOf es := rfl
      rw [lastInstalled, lastInstalled, hcons, getLast?_getD_cons]

lemma cacheRun_writes (s : CacheState) (events : List CacheEvent) :
    (cacheRun s events).1.writes =
      s.writes ++ (installsOf events).map encodeEntries := by
  induction events generalizing s with
  | nil => simp [cacheRun, installsOf]
  | cons e es ih =>
    cases e with
    | serve =>
      rw [cacheRun]
      rw [ih]
      rfl
    | install f =>
      rw [cacheRun]
      rw [ih]
      simp [installsOf, cacheStep]

/-- C3: the cache actor is serialized.  At any serve point of any trace,
the reader receives in full the most recently installed snapshot (the
initial empty one when nothing was installed yet) — never a mixture; every
install is persisted exactly once, in installation order, so no two
installs overlap; and each step is exactly one of the two transitions: a
serve mutates nothing and persists nothing, an install emits nothing to a
reader. -/
theorem feedCache_serialized :
    ∀ (pre post : List CacheEvent),
      (cacheRun cacheInit (pre ++ CacheEvent.serve :: post)).2 =
        (cacheRun cacheInit pre).2 ++
          lastInstalled pre [] ::
            (cacheRun (cacheRun cacheInit pre).1 (CacheEvent.serve :: post)).2.tail ∧
      (cacheRun cacheInit pre).1.writes =
        (installsOf pre).map encodeEntries ∧
      (∀ s, (cacheStep s .serve).1 = s) ∧
      (∀ s f, (cacheStep s (.install f)).2 = none) := by
  intro pre post
  refine ⟨?_, ?_, fun _ => rfl, fun _ _ => rfl⟩
  · rw [cacheRun_append]
    have h1 : (cacheRun (cacheRun cacheInit pre).1 (CacheEvent.serve :: post)).2 =
        (cacheRun cacheInit pre).1.feedz ::
          (cacheRun (cacheRun cacheInit pre).1 post).2 := by
      rw [cacheRun]
      rfl
    rw [h1, cacheRun_feedz]
    rfl
  · rw [cacheRun_writes]
    rfl

/-- C10: a read that reaches the actor before any snapshot has been
installed is answered with the nil (empty) entry list — the initial
`feedz` — and a serve step always answers immediately with the installed
snapshot (the `toShow <- feedz` case is unconditionally offered). -/
theorem feedCache_reads_before_install_empty :
    ∀ (pre post : List CacheEvent),
      installsOf pre = [] →
      (cacheRun cacheInit (pre ++ CacheEvent.serve :: post)).2 =
        (cacheRun cacheInit pre).2 ++
          ([] : List Entry) ::
            (cacheRun (cacheRun cacheInit pre).1 post).2 ∧
      (∀ s, (cacheStep s .serve).2 = some s.feedz) := by
  intro pre post hpre
  refine ⟨?_, fun _ => rfl⟩
  rw [cacheRun_append]
  have h1 : (cacheRun (cacheRun cacheInit pre).1 (CacheEvent.serve :: post)).2 =
      (cacheRun cacheInit pre).1.feedz ::
        (cacheRun (cacheRun cacheInit pre).1 post).2 := by
    rw [cacheRun]
    rfl
  rw [h1, cacheRun_feedz, lastInstalled, hpre]
  rfl

/-- C10 witness: a trace consisting of two reads and no installs — both
readers are served the empty list. -/
theorem feedCache_reads_before_install_empty_witness :
    (cacheRun cacheInit ([CacheEvent.serve] ++ CacheEvent.serve :: [])).2 =
      (cacheRun cacheInit [CacheEvent.serve]).2 ++
        ([] : List Entry) :: (cacheRun (cacheRun cacheInit [CacheEvent.serve]).1 []).2 ∧
    (∀ s, (cacheStep s .serve).2 = some s.feedz) :=
  feedCache_reads_before_install_empty [CacheEvent.serve] [] rfl

end Webrss
